import Mathlib

/-!
# Verification of the wasm binary-module decoder

A shallow embedding of the decoder in `binary/reader.go`, `binary/module.go`,
`binary/errors.go` and the value-type definitions of the repository, together
with theorems settling the specification claims about it.

Bytes are modelled as natural numbers (the program only ever consumes values
in 0..255); the remaining input is a `List Nat`.  The Go implementation
propagates errors by panic/recover; we model every reader operation as a
function from the remaining input to `Except DErr (result × remaining input)`.
The top-level `readModule`/`Decode` additionally thread the partially
assembled `Module`, because the Go code mutates the caller-supplied module in
place and the recover-based `Decode` hands that partially mutated module back
to the caller together with the error.
-/

/-- The error conditions raised (via `panic`) by the decoder.  Each
constructor corresponds to one `panic` site / error value of the source
(`errors.go` and the `fmt.Errorf`/`errors.New` calls in `reader.go`). -/
inductive DErr where
  /-- `errUnexpectedEnd`: "unexpected end of section or function". -/
  | unexpectedEnd : DErr
  /-- `errIntTooLong`: "integer representation too long". -/
  | intTooLong : DErr
  /-- `errIntTooLarge`: "integer too large". -/
  | intTooLarge : DErr
  /-- `errMalformedUTF8Encoding`: "malformed UTF-8 encoding". -/
  | malformedUTF8 : DErr
  /-- "unexpected end of magic header". -/
  | endOfMagicHeader : DErr
  /-- "magic header not detected". -/
  | magicNotDetected : DErr
  /-- "unexpected end of binary version". -/
  | endOfVersion : DErr
  /-- "unknown binary version: %d". -/
  | unknownVersion : Nat → DErr
  /-- "malformed section id: %d". -/
  | malformedSectionId : Nat → DErr
  /-- "junk after last section, id: %d" (raised in `readSections`). -/
  | junkAfterLastSection : Nat → DErr
  /-- "junk after last section" (raised in `readModule` on trailing bytes). -/
  | trailingJunk : DErr
  /-- "section size mismatch, id: %d". -/
  | sectionSizeMismatch : Nat → DErr
  /-- "function and code section have inconsistent lengths". -/
  | funcCodeMismatch : DErr
  /-- "invalid import desc tag: %d". -/
  | invalidImportDescTag : Nat → DErr
  /-- "invalid export desc tag: %d". -/
  | invalidExportDescTag : Nat → DErr
  /-- "malformed value type: %d". -/
  | malformedValType : Nat → DErr
  /-- "invalid functype tag: %d". -/
  | invalidFuncTypeTag : Nat → DErr
  /-- "invalid elemtype: %d". -/
  | invalidElemType : Nat → DErr
  /-- "malformed mutability: %d". -/
  | malformedMutability : Nat → DErr
  /-- "too many locals: %d". -/
  | tooManyLocals : Nat → DErr
deriving DecidableEq

/-- The spec's `TruncatedInput` error kind: fewer bytes available than a read
requires, at any nesting level (§7 of the spec).  It comprises
`errUnexpectedEnd` and the two header end-of-input errors. -/
def DErr.isTruncation : DErr → Bool
  | .unexpectedEnd => true
  | .endOfMagicHeader => true
  | .endOfVersion => true
  | _ => false

deriving instance DecidableEq for Except

/- ### Constants (module.go) -/

def SecCustomID : Nat := 0
def SecTypeID : Nat := 1
def SecImportID : Nat := 2
def SecFuncID : Nat := 3
def SecTableID : Nat := 4
def SecMemID : Nat := 5
def SecGlobalID : Nat := 6
def SecExportID : Nat := 7
def SecStartID : Nat := 8
def SecElemID : Nat := 9
def SecCodeID : Nat := 10
def SecDataID : Nat := 11

def ImportTagFunc : Nat := 0
def ImportTagTable : Nat := 1
def ImportTagMem : Nat := 2
def ImportTagGlobal : Nat := 3

def MagicNumber : Nat := 0x6D736100
def Version : Nat := 0x00000001

/- ### Value and entity types (the repository's type definitions) -/

/-- `type ValType = byte`. -/
abbrev ValType := Nat

def ValTypeI32 : ValType := 0x7F
def ValTypeI64 : ValType := 0x7E
def ValTypeF32 : ValType := 0x7D
def ValTypeF64 : ValType := 0x7C

def FtTag : Nat := 0x60
def FuncRef : Nat := 0x70

def MutConst : Nat := 0
def MutVar : Nat := 1

/-- Modelled from the spec: the `Expr` type is declared in a repository file
that is not part of the sources here (only `readExpr`, which always returns
`nil`, is).  Per §3 of the spec an expression is opaque to this core: the
decoder scans to the terminator and retains nothing, so we model the type as
an option that the decoder always leaves empty (`none` = Go `nil`). -/
abbrev Expr := Option Unit

structure FuncType where
  Tag : Nat := 0
  ParamTypes : List ValType := []
  ResultTypes : List ValType := []
deriving DecidableEq

structure Limits where
  Tag : Nat := 0
  Min : Nat := 0
  Max : Nat := 0
deriving DecidableEq

/-- `type MemType = Limits`. -/
abbrev MemType := Limits

structure TableType where
  ElemType : Nat := 0
  /-- Go field `Limits`. -/
  Lim : Limits := {}
deriving DecidableEq

structure GlobalType where
  /-- Go field `ValType`. -/
  Valtype : ValType := 0
  Mut : Nat := 0
deriving DecidableEq

structure ImportDesc where
  Tag : Nat := 0
  FuncType : Nat := 0
  Table : TableType := {}
  Mem : MemType := {}
  Global : GlobalType := {}
deriving DecidableEq

/-- Names are byte strings (`string` in Go); we keep the raw bytes. -/
structure Import where
  Module : List Nat := []
  Name : List Nat := []
  Desc : ImportDesc := {}
deriving DecidableEq

structure Global where
  /-- Go field `Type`. -/
  Typ : GlobalType := {}
  Init : Expr := none
deriving DecidableEq

structure ExportDesc where
  Tag : Nat := 0
  Idx : Nat := 0
deriving DecidableEq

structure Export where
  Name : List Nat := []
  Desc : ExportDesc := {}
deriving DecidableEq

structure Elem where
  Table : Nat := 0
  Offset : Expr := none
  Init : List Nat := []
deriving DecidableEq

structure Locals where
  N : Nat := 0
  /-- Go field `Type`. -/
  Typ : ValType := 0
deriving DecidableEq

structure Code where
  Locals : List Locals := []
  Expr : Expr := none
deriving DecidableEq

structure Data where
  Mem : Nat := 0
  Offset : Expr := none
  Init : List Nat := []
deriving DecidableEq

structure CustomSec where
  Name : List Nat := []
  Bytes : List Nat := []
deriving DecidableEq

structure WasmModule where
  Magic : Nat := 0
  Version : Nat := 0
  CustomSecs : List CustomSec := []
  TypeSec : List FuncType := []
  ImportSec : List Import := []
  FuncSec : List Nat := []
  TableSec : List TableType := []
  MemSec : List MemType := []
  GlobalSec : List Global := []
  ExportSec : List Export := []
  StartSec : Option Nat := none
  ElemSec : List Elem := []
  CodeSec : List Code := []
  DataSec : List Data := []
deriving DecidableEq

/-- `func (code Code) GetLocalCount() uint64` — sums the repeat counts of all
locals declarations.  Each summand is below `2^32` and the entry count is
below `2^32`, so the Go `uint64` sum never wraps and the `Nat` sum is exact. -/
def Code.GetLocalCount (code : Code) : Nat :=
  code.Locals.foldl (fun n locals => n + locals.N) 0

/- ### UTF-8 validation (Go `utf8.Valid`) -/

/-- A UTF-8 continuation byte `0b10xxxxxx`. -/
def utf8Cont (b : Nat) : Bool := b &&& 0xC0 == 0x80

/-- Go `utf8.Valid`: well-formed UTF-8, rejecting overlong encodings,
surrogates and code points above U+10FFFF. -/
def utf8Valid : List Nat → Bool
  | [] => true
  | b :: rest =>
    if b < 0x80 then utf8Valid rest
    else if 0xC2 ≤ b ∧ b ≤ 0xDF then
      match rest with
      | c1 :: r => utf8Cont c1 && utf8Valid r
      | [] => false
    else if b = 0xE0 then
      match rest with
      | c1 :: c2 :: r => (0xA0 ≤ c1 && c1 ≤ 0xBF) && utf8Cont c2 && utf8Valid r
      | _ => false
    else if (0xE1 ≤ b ∧ b ≤ 0xEC) ∨ b = 0xEE ∨ b = 0xEF then
      match rest with
      | c1 :: c2 :: r => utf8Cont c1 && utf8Cont c2 && utf8Valid r
      | _ => false
    else if b = 0xED then
      match rest with
      | c1 :: c2 :: r => (0x80 ≤ c1 && c1 ≤ 0x9F) && utf8Cont c2 && utf8Valid r
      | _ => false
    else if b = 0xF0 then
      match rest with
      | c1 :: c2 :: c3 :: r =>
        (0x90 ≤ c1 && c1 ≤ 0xBF) && utf8Cont c2 && utf8Cont c3 && utf8Valid r
      | _ => false
    else if 0xF1 ≤ b ∧ b ≤ 0xF3 then
      match rest with
      | c1 :: c2 :: c3 :: r =>
        utf8Cont c1 && utf8Cont c2 && utf8Cont c3 && utf8Valid r
      | _ => false
    else if b = 0xF4 then
      match rest with
      | c1 :: c2 :: c3 :: r =>
        (0x80 ≤ c1 && c1 ≤ 0x8F) && utf8Cont c2 && utf8Cont c3 && utf8Valid r
      | _ => false
    else false

/- ### Variable-length integer decoding

The functions `decodeVarUint` and `decodeVarInt` are called by
`reader.go` but live in a repository file that is not among the sources
here, so they are modelled from the spec (§4.2). -/

/-- Modelled from the spec: §4.2 — unsigned LEB128 decoding of a value of
`size` bits.  Read bytes one at a time; each byte contributes its 7 low-order
bits at increasing bit offsets, continuation indicated by the high bit.  At
the last byte index that could possibly encode the target width
(`size / 7`): a set continuation bit signals "integer representation too
long", and significant bits beyond the target width signal "integer too
large".  Exhausting the input before a terminating byte signals premature end
of input.  `i` is the current byte index, `acc` the bits accumulated so far;
the result pairs the decoded value with the count of bytes consumed. -/
def decodeVarUintLoop (size : Nat) : List Nat → Nat → Nat → Except DErr (Nat × Nat)
  | [], _, _ => .error .unexpectedEnd
  | b :: rest, i, acc =>
    if i = size / 7 ∧ b &&& 0x80 ≠ 0 then .error .intTooLong
    else if i = size / 7 ∧ b >>> (size - i * 7) ≠ 0 then .error .intTooLarge
    else
      let acc2 := acc ||| ((b &&& 0x7F) <<< (i * 7))
      if b &&& 0x80 = 0 then .ok (acc2, i + 1)
      else decodeVarUintLoop size rest (i + 1) acc2

/-- Modelled from the spec: §4.2 — `decodeVarUint(data, size)` returns the
decoded value and the number of bytes consumed. -/
def decodeVarUint (data : List Nat) (size : Nat) : Except DErr (Nat × Nat) :=
  decodeVarUintLoop size data 0 0

/-- Modelled from the spec: §4.2 — the final-byte fit check for signed
decoding: once combined with sign/zero-extension the remaining significant
bits must fit the target width (the high bits of the final byte must be a
proper sign replication). -/
def signedRemFits (size i b : Nat) : Bool :=
  if b &&& 0x40 = 0 then b >>> (size - i * 7 - 1) == 0
  else b >>> (size - i * 7 - 1) == 0x7F >>> (size - i * 7 - 1)

/-- Modelled from the spec: §4.2 — signed LEB128 decoding of a value of
`size` bits; like the unsigned loop, but on the final byte the value is
sign-extended from the last significant bit (the `0x40` bit) when more bytes
could have followed within the target width. -/
def decodeVarIntLoop (size : Nat) : List Nat → Nat → Nat → Except DErr (Int × Nat)
  | [], _, _ => .error .unexpectedEnd
  | b :: rest, i, acc =>
    if i = size / 7 ∧ b &&& 0x80 ≠ 0 then .error .intTooLong
    else if i = size / 7 ∧ signedRemFits size i b = false then .error .intTooLarge
    else
      let acc2 := acc ||| ((b &&& 0x7F) <<< (i * 7))
      if b &&& 0x80 = 0 then
        if i * 7 + 7 < size ∧ b &&& 0x40 ≠ 0 then
          .ok ((acc2 : Int) - (2 : Int) ^ ((i + 1) * 7), i + 1)
        else .ok ((acc2 : Int), i + 1)
      else decodeVarIntLoop size rest (i + 1) acc2

/-- Modelled from the spec: §4.2 — `decodeVarInt(data, size)`. -/
def decodeVarInt (data : List Nat) (size : Nat) : Except DErr (Int × Nat) :=
  decodeVarIntLoop size data 0 0

/- ### The reader (reader.go)

`wasmReader` holds the remaining bytes; every operation consumes a prefix of
them or fails.  `Rd α` is the type of such an operation. -/

abbrev Rd (α : Type) := List Nat → Except DErr (α × List Nat)

def Rd.pure (a : α) : Rd α := fun d => .ok (a, d)

def Rd.fail (e : DErr) : Rd α := fun _ => .error e

def Rd.bind (m : Rd α) (f : α → Rd β) : Rd β := fun d =>
  match m d with
  | .ok (a, d1) => f a d1
  | .error e => .error e

/-- `readByte`. -/
def readByte : Rd Nat := fun d =>
  match d with
  | [] => .error .unexpectedEnd
  | b :: rest => .ok (b, rest)

/-- The little-endian 32-bit value of four bytes. -/
def le32 (b0 b1 b2 b3 : Nat) : Nat :=
  b0 + b1 * 256 + b2 * 65536 + b3 * 16777216

/-- `readU32` (little-endian fixed 4 bytes). -/
def readU32 : Rd Nat := fun d =>
  match d with
  | b0 :: b1 :: b2 :: b3 :: rest => .ok (le32 b0 b1 b2 b3, rest)
  | _ => .error .unexpectedEnd

/-- `readVarU32`: `decodeVarUint(data, 32)` then advance by the consumed
width; the Go result is cast to `uint32` (a no-op for in-range values,
kept as an explicit reduction). -/
def readVarU32 : Rd Nat := fun d =>
  match decodeVarUint d 32 with
  | .error e => .error e
  | .ok (n, w) => .ok (n % 4294967296, d.drop w)

/-- `readVarS32`: `decodeVarInt(data, 32)` then advance; the Go result is
cast to `int32` (two's-complement truncation to 32 bits). -/
def toInt32 (z : Int) : Int := (z + 2 ^ 31).emod (2 ^ 32) - 2 ^ 31

def readVarS32 : Rd Int := fun d =>
  match decodeVarInt d 32 with
  | .error e => .error e
  | .ok (n, w) => .ok (toInt32 n, d.drop w)

/-- `readBytes`: a varint length followed by that many raw bytes; fails if
fewer bytes remain than declared. -/
def readBytes : Rd (List Nat) :=
  Rd.bind readVarU32 (fun n => fun d =>
    if d.length < n then .error .unexpectedEnd
    else .ok (d.take n, d.drop n))

/-- `readName`: a byte vector validated as UTF-8. -/
def readName : Rd (List Nat) :=
  Rd.bind readBytes (fun bs =>
    if utf8Valid bs then Rd.pure bs else Rd.fail .malformedUTF8)

/-- Decode `n` elements with `f`, in order (the `make`/`range` loops of the
section decoders). -/
def readVec (f : Rd α) : Nat → Rd (List α)
  | 0 => Rd.pure []
  | n + 1 => Rd.bind f (fun a => Rd.bind (readVec f n) (fun as => Rd.pure (a :: as)))

/-- `readValType`: one byte, which must be one of the four value types. -/
def readValType : Rd ValType :=
  Rd.bind readByte (fun vt =>
    if vt = ValTypeI32 ∨ vt = ValTypeI64 ∨ vt = ValTypeF32 ∨ vt = ValTypeF64
    then Rd.pure vt
    else Rd.fail (.malformedValType vt))

/-- `readValTypes`. -/
def readValTypes : Rd (List ValType) :=
  Rd.bind readVarU32 (fun n => readVec readValType n)

/-- `readFuncType`: tag byte, parameter types, result types; the tag is
checked (after all three reads) against `FtTag`. -/
def readFuncType : Rd FuncType :=
  Rd.bind readByte (fun tag =>
    Rd.bind readValTypes (fun ps =>
      Rd.bind readValTypes (fun rs =>
        if tag ≠ FtTag then Rd.fail (.invalidFuncTypeTag tag)
        else Rd.pure { Tag := tag, ParamTypes := ps, ResultTypes := rs })))

/-- `readLimits`: a tag byte and a minimum; a maximum is read only when the
tag equals `1` — every other tag value is accepted as "no maximum". -/
def readLimits : Rd Limits :=
  Rd.bind readByte (fun tag =>
    Rd.bind readVarU32 (fun mn =>
      if tag = 1 then
        Rd.bind readVarU32 (fun mx => Rd.pure { Tag := tag, Min := mn, Max := mx })
      else Rd.pure { Tag := tag, Min := mn, Max := 0 }))

/-- `readTableType`: element type byte plus limits; the element type is
checked (after both reads) against `FuncRef`. -/
def readTableType : Rd TableType :=
  Rd.bind readByte (fun et =>
    Rd.bind readLimits (fun l =>
      if et ≠ FuncRef then Rd.fail (.invalidElemType et)
      else Rd.pure { ElemType := et, Lim := l }))

/-- `readGlobalType`: value type plus mutability byte (const or var). -/
def readGlobalType : Rd GlobalType :=
  Rd.bind readValType (fun vt =>
    Rd.bind readByte (fun mt =>
      if mt = MutConst ∨ mt = MutVar
      then Rd.pure { Valtype := vt, Mut := mt }
      else Rd.fail (.malformedMutability mt)))

/-- The scan loop of `readExpr`: `for reader.readByte() != 0x0B {}`. -/
def readExprLoop : List Nat → Except DErr (Expr × List Nat)
  | [] => .error .unexpectedEnd
  | b :: rest => if b = 0x0B then .ok (none, rest) else readExprLoop rest

/-- `readExpr`: scan forward, one byte at a time, to the first `0x0B`
terminator (inclusive); nothing is retained (`return nil`). -/
def readExpr : Rd Expr := fun d => readExprLoop d

/-- `readImportDesc`: a tag byte selecting which description payload
follows; any tag other than the four imports tags is invalid. -/
def readImportDesc : Rd ImportDesc :=
  Rd.bind readByte (fun tag =>
    if tag = ImportTagFunc then
      Rd.bind readVarU32 (fun x => Rd.pure { Tag := tag, FuncType := x })
    else if tag = ImportTagTable then
      Rd.bind readTableType (fun t => Rd.pure { Tag := tag, Table := t })
    else if tag = ImportTagMem then
      Rd.bind readLimits (fun l => Rd.pure { Tag := tag, Mem := l })
    else if tag = ImportTagGlobal then
      Rd.bind readGlobalType (fun g => Rd.pure { Tag := tag, Global := g })
    else Rd.fail (.invalidImportDescTag tag))

/-- `readImport`. -/
def readImport : Rd Import :=
  Rd.bind readName (fun md =>
    Rd.bind readName (fun nm =>
      Rd.bind readImportDesc (fun desc =>
        Rd.pure { Module := md, Name := nm, Desc := desc })))

/-- `readExportDesc`: tag and index are both read before the tag check. -/
def readExportDesc : Rd ExportDesc :=
  Rd.bind readByte (fun tag =>
    Rd.bind readVarU32 (fun idx =>
      if tag = 0 ∨ tag = 1 ∨ tag = 2 ∨ tag = 3
      then Rd.pure { Tag := tag, Idx := idx }
      else Rd.fail (.invalidExportDescTag tag)))

/-- `readExport`. -/
def readExport : Rd Export :=
  Rd.bind readName (fun nm =>
    Rd.bind readExportDesc (fun desc => Rd.pure { Name := nm, Desc := desc }))

/-- `readGlobal` (the loop body of `readGlobalSec`). -/
def readGlobal : Rd Global :=
  Rd.bind readGlobalType (fun gt =>
    Rd.bind readExpr (fun e => Rd.pure { Typ := gt, Init := e }))

/-- `readIndices`. -/
def readIndices : Rd (List Nat) :=
  Rd.bind readVarU32 (fun n => readVec readVarU32 n)

/-- `readElem`. -/
def readElem : Rd Elem :=
  Rd.bind readVarU32 (fun tbl =>
    Rd.bind readExpr (fun off =>
      Rd.bind readIndices (fun ini =>
        Rd.pure { Table := tbl, Offset := off, Init := ini })))

/-- `readLocals`. -/
def readLocals : Rd Locals :=
  Rd.bind readVarU32 (fun n =>
    Rd.bind readValType (fun t => Rd.pure { N := n, Typ := t }))

/-- `readLocalsVec`. -/
def readLocalsVec : Rd (List Locals) :=
  Rd.bind readVarU32 (fun n => readVec readLocals n)

/-- `readCode`: the entry is sliced out as a byte vector and re-parsed by an
independent sub-reader, which decodes only the locals vector; whatever
follows the locals inside the slice is discarded unexamined, and `Expr` is
never populated.  The summed local count must stay below `math.MaxUint32`. -/
def readCode : Rd Code :=
  Rd.bind readBytes (fun payload => fun d =>
    match readLocalsVec payload with
    | .error e => .error e
    | .ok (locals, _) =>
      let code : Code := { Locals := locals, Expr := none }
      if code.GetLocalCount ≥ 4294967295
      then .error (.tooManyLocals code.GetLocalCount)
      else .ok (code, d))

/-- `readData`. -/
def readData : Rd Data :=
  Rd.bind readVarU32 (fun mem =>
    Rd.bind readExpr (fun off =>
      Rd.bind readBytes (fun ini =>
        Rd.pure { Mem := mem, Offset := off, Init := ini })))

/-- `readCustomSec`: the section is sliced out as a byte vector and
re-parsed by an independent sub-reader: a name, then the rest of the slice
as the opaque payload. -/
def readCustomSec : Rd CustomSec := fun d =>
  match readBytes d with
  | .error e => .error e
  | .ok (payload, d1) =>
    match readName payload with
    | .error e => .error e
    | .ok (nm, bytesRest) => .ok ({ Name := nm, Bytes := bytesRest }, d1)

/-- `readTypeSec`. -/
def readTypeSec : Rd (List FuncType) :=
  Rd.bind readVarU32 (fun n => readVec readFuncType n)

/-- `readImportSec`. -/
def readImportSec : Rd (List Import) :=
  Rd.bind readVarU32 (fun n => readVec readImport n)

/-- `readTableSec`. -/
def readTableSec : Rd (List TableType) :=
  Rd.bind readVarU32 (fun n => readVec readTableType n)

/-- `readMemSec`. -/
def readMemSec : Rd (List MemType) :=
  Rd.bind readVarU32 (fun n => readVec readLimits n)

/-- `readGlobalSec`. -/
def readGlobalSec : Rd (List Global) :=
  Rd.bind readVarU32 (fun n => readVec readGlobal n)

/-- `readExportSec`. -/
def readExportSec : Rd (List Export) :=
  Rd.bind readVarU32 (fun n => readVec readExport n)

/-- `readStartSec`. -/
def readStartSec : Rd (Option Nat) :=
  Rd.bind readVarU32 (fun idx => Rd.pure (some idx))

/-- `readElemSec`. -/
def readElemSec : Rd (List Elem) :=
  Rd.bind readVarU32 (fun n => readVec readElem n)

/-- `readCodeSec`. -/
def readCodeSec : Rd (List Code) :=
  Rd.bind readVarU32 (fun n => readVec readCode n)

/-- `readDataSec`. -/
def readDataSec : Rd (List Data) :=
  Rd.bind readVarU32 (fun n => readVec readData n)

/-- `readNonCustomSec`: dispatch on the section id, populating the matching
module field; the Go `switch` has no default case. -/
def readNonCustomSec (secID : Nat) (m : WasmModule) : Rd WasmModule :=
  match secID with
  | 1 => Rd.bind readTypeSec (fun v => Rd.pure { m with TypeSec := v })
  | 2 => Rd.bind readImportSec (fun v => Rd.pure { m with ImportSec := v })
  | 3 => Rd.bind readIndices (fun v => Rd.pure { m with FuncSec := v })
  | 4 => Rd.bind readTableSec (fun v => Rd.pure { m with TableSec := v })
  | 5 => Rd.bind readMemSec (fun v => Rd.pure { m with MemSec := v })
  | 6 => Rd.bind readGlobalSec (fun v => Rd.pure { m with GlobalSec := v })
  | 7 => Rd.bind readExportSec (fun v => Rd.pure { m with ExportSec := v })
  | 8 => Rd.bind readStartSec (fun v => Rd.pure { m with StartSec := v })
  | 9 => Rd.bind readElemSec (fun v => Rd.pure { m with ElemSec := v })
  | 10 => Rd.bind readCodeSec (fun v => Rd.pure { m with CodeSec := v })
  | 11 => Rd.bind readDataSec (fun v => Rd.pure { m with DataSec := v })
  | _ => Rd.pure m

/-- `readSections`: the section-stream loop.  `prev` is `prevSecID`; the
result carries the module as mutated so far, the remaining bytes, and the
error if any (on error the Go code panics with the module fields assigned so
far left in place).  The loop runs until no bytes remain; `fuel` bounds the
recursion and is chosen `≥` the input length at the entry point, which makes
the fuel-exhaustion branch unreachable (each iteration consumes at least the
section-id byte). -/
def readSectionsLoop (fuel : Nat) (prev : Nat) (m : WasmModule) (d : List Nat) :
    WasmModule × List Nat × Option DErr :=
  match d with
  | [] => (m, [], none)
  | secID :: rest =>
    match fuel with
    | 0 => (m, secID :: rest, some .unexpectedEnd)
    | fuel + 1 =>
      if secID = SecCustomID then
        match readCustomSec rest with
        | .error e => (m, rest, some e)
        | .ok (c, r) =>
          readSectionsLoop fuel prev { m with CustomSecs := m.CustomSecs ++ [c] } r
      else if secID > SecDataID then (m, rest, some (.malformedSectionId secID))
      else if secID ≤ prev then (m, rest, some (.junkAfterLastSection secID))
      else
        match readVarU32 rest with
        | .error e => (m, rest, some e)
        | .ok (n, d1) =>
          match readNonCustomSec secID m d1 with
          | .error e => (m, d1, some e)
          | .ok (m2, d2) =>
            if d2.length + n ≠ d1.length then (m2, d2, some (.sectionSizeMismatch secID))
            else readSectionsLoop fuel secID m2 d2

/-- `readModule`: magic, version, sections, then the function/code length
cross-check and the trailing-bytes check.  The module fields are assigned as
soon as each value is read (before its validity check), mirroring the Go
in-place mutation; the returned module is the state at success or at the
panic point. -/
def readModule (m : WasmModule) (d : List Nat) : WasmModule × List Nat × Option DErr :=
  match d with
  | b0 :: b1 :: b2 :: b3 :: d1 =>
    if le32 b0 b1 b2 b3 ≠ MagicNumber then
      ({ m with Magic := le32 b0 b1 b2 b3 }, d1, some .magicNotDetected)
    else
      match d1 with
      | c0 :: c1 :: c2 :: c3 :: d2 =>
        if le32 c0 c1 c2 c3 ≠ Version then
          ({ m with Magic := le32 b0 b1 b2 b3, Version := le32 c0 c1 c2 c3 }, d2,
            some (.unknownVersion (le32 c0 c1 c2 c3)))
        else
          match readSectionsLoop d2.length 0
              { m with Magic := le32 b0 b1 b2 b3, Version := le32 c0 c1 c2 c3 } d2 with
          | (m3, d3, some e) => (m3, d3, some e)
          | (m3, d3, none) =>
            if m3.FuncSec.length ≠ m3.CodeSec.length then (m3, d3, some .funcCodeMismatch)
            else if d3.length > 0 then (m3, d3, some .trailingJunk)
            else (m3, d3, none)
      | _ => ({ m with Magic := le32 b0 b1 b2 b3 }, d1, some .endOfVersion)
  | _ => (m, d, some .endOfMagicHeader)

/-- `Decode`: runs `readModule` on a zero-valued module; on panic the
recover handler returns the error together with the partially mutated
module (Go named return values). -/
def Decode (d : List Nat) : WasmModule × Option DErr :=
  let r := readModule {} d
  (r.1, r.2.2)

/- A few sanity checks of the embedding on concrete inputs. -/

/-- The canonical 8-byte header. -/
def hdr8 : List Nat := [0x00, 0x61, 0x73, 0x6D, 0x01, 0x00, 0x00, 0x00]

/-- The 4 magic bytes. -/
def magic4 : List Nat := [0x00, 0x61, 0x73, 0x6D]

/-- A valid 17-byte module: header, function-index section `[0]`, and a code
section with one empty body. -/
def truncEx : List Nat := hdr8 ++ [3, 2, 1, 0] ++ [10, 3, 1, 1, 0]

/-- A reader operation is truncation-safe: every success consumes a
determined prefix `c` of the input, the behaviour depends only on `c`, and
on every strict prefix of `c` the operation fails with premature end of
input. -/
def RdSafe (rd : Rd α) : Prop :=
  ∀ d a r, rd d = .ok (a, r) →
    ∃ c, d = c ++ r ∧ (∀ t, rd (c ++ t) = .ok (a, t)) ∧
      (∀ k, k < c.length → rd (c.take k) = .error .unexpectedEnd)

example : Decode hdr8 = ({ Magic := MagicNumber, Version := 1 }, none) := by decide
example : Decode [] = ({}, some .endOfMagicHeader) := by decide
example : Decode [1, 0, 0, 0] = ({ Magic := 1 }, some .magicNotDetected) := by decide
example :
    Decode (hdr8 ++ [1, 4, 1, 0x60, 0, 0]) =
      ({ Magic := MagicNumber, Version := 1,
         TypeSec := [{ Tag := 0x60, ParamTypes := [], ResultTypes := [] }] }, none) := by
  decide

/- ### Claim theorems -/

example : readBytes [2, 7, 8, 9] = .ok ([7, 8], [9]) := by decide

/-- C7: the variable-length integer decoder maps `0x00` to unsigned 0
consuming 1 byte and `0xE5 0x8E 0x26` to unsigned 624485 consuming 3 bytes;
a 5-byte unsigned-32 encoding whose continuation bits imply a 6th byte fails
with `intTooLong` (IntegerEncodingError); the signed 32-bit decoder maps the
single byte `0x7F` to `-1`. -/
theorem varint_decoding_examples :
    decodeVarUint [0x00] 32 = .ok (0, 1) ∧
    decodeVarUint [0xE5, 0x8E, 0x26] 32 = .ok (624485, 3) ∧
    decodeVarUint [0x80, 0x80, 0x80, 0x80, 0x80] 32 = .error .intTooLong ∧
    decodeVarInt [0x7F] 32 = .ok (-1, 1) ∧
    readVarU32 [0xE5, 0x8E, 0x26, 0xAA] = .ok (624485, [0xAA]) ∧
    readVarS32 [0x7F] = .ok (-1, []) := by
  refine ⟨by decide, by decide, by decide, by decide, by decide, by decide⟩

/-- C9: decoding `Limits` never fails because of the one-byte presence flag:
only the flag value `1` causes a maximum bound to be read, and every other
flag value (0, 2, 0xFF, ...) is accepted and treated as "no maximum present"
(`Max` left at its zero value) rather than rejected as a malformed tag. -/
theorem readLimits_flag_handling :
    (∀ (b : Nat) (rest : List Nat), b ≠ 1 →
      readLimits (b :: rest) =
        match readVarU32 rest with
        | .ok (mn, r) => .ok ({ Tag := b, Min := mn, Max := 0 }, r)
        | .error e => .error e) ∧
    (∀ rest : List Nat,
      readLimits (1 :: rest) =
        match readVarU32 rest with
        | .ok (mn, r) =>
          match readVarU32 r with
          | .ok (mx, r2) => .ok ({ Tag := 1, Min := mn, Max := mx }, r2)
          | .error e => .error e
        | .error e => .error e) := by
  constructor
  · intro b rest hb
    simp only [readLimits, Rd.bind, readByte]
    cases hv : readVarU32 rest with
    | error e => rfl
    | ok p =>
      obtain ⟨mn, r⟩ := p
      simp [hb, Rd.pure]
  · intro rest
    simp only [readLimits, Rd.bind, readByte]
    cases hv : readVarU32 rest with
    | error e => rfl
    | ok p =>
      obtain ⟨mn, r⟩ := p
      cases hw : readVarU32 r with
      | error e => simp [Rd.bind, hw, Rd.pure]
      | ok q => obtain ⟨mx, r2⟩ := q; simp [Rd.bind, hw, Rd.pure]

/-- Witness for C9: the flag value `2` (neither 0 nor 1) is accepted and
yields no maximum. -/
theorem readLimits_flag_handling_witness :
    readLimits [2, 5] = .ok ({ Tag := 2, Min := 5, Max := 0 }, []) := by
  rw [readLimits_flag_handling.1 2 [5] (by decide)]
  decide

/-- C8: for every code entry, the exact sum of the repeat counts of its
Locals declarations must stay below the 32-bit count limit
(`math.MaxUint32 = 4294967295`): an entry whose total reaches or exceeds the
limit fails with "too many locals", and an entry whose total is below it is
not rejected (it decodes successfully, consuming exactly its byte slice). -/
theorem readCode_local_count_limit :
    ∀ (d payload r : List Nat) (locals : List Locals) (r2 : List Nat),
      readBytes d = .ok (payload, r) →
      readLocalsVec payload = .ok (locals, r2) →
      (Code.GetLocalCount { Locals := locals, Expr := none } ≥ 4294967295 →
        readCode d =
          .error (.tooManyLocals (Code.GetLocalCount { Locals := locals, Expr := none }))) ∧
      (Code.GetLocalCount { Locals := locals, Expr := none } < 4294967295 →
        readCode d = .ok ({ Locals := locals, Expr := none }, r)) := by
  intro d payload r locals r2 hb hl
  simp only [readCode, Rd.bind, hb, hl]
  constructor
  · intro h
    rw [if_pos h]
  · intro h
    rw [if_neg (by omega)]

/-- Witness for C8: a single locals declaration with repeat count
`0xFFFFFFFF` reaches the limit and is rejected with "too many locals". -/
theorem readCode_local_count_limit_witness :
    readCode [0x07, 0x01, 0xFF, 0xFF, 0xFF, 0xFF, 0x0F, 0x7F] =
      .error (.tooManyLocals 4294967295) := by
  have h := (readCode_local_count_limit
      [0x07, 0x01, 0xFF, 0xFF, 0xFF, 0xFF, 0x0F, 0x7F]
      [0x01, 0xFF, 0xFF, 0xFF, 0xFF, 0x0F, 0x7F] []
      [{ N := 4294967295, Typ := 0x7F }] []
      (by decide) (by decide)).1 (by decide)
  exact h

/-- C10: after the Locals vector of a code entry is read, the remaining
bytes of the entry's bounded sub-slice are discarded without being scanned —
no `0x0B` terminator is required in a code body — and the `Expr` field of
every decoded `Code` is `none` (Go `nil`); by contrast, `readExpr` (used for
global/element/data initializers) scans byte-by-byte up to and including the
first `0x0B` terminator and fails with truncation if there is none. -/
theorem code_body_discarded_expr_nil :
    (∀ (d : List Nat) (c : Code) (r : List Nat), readCode d = .ok (c, r) → c.Expr = none) ∧
    (∀ (d payload r : List Nat) (locals : List Locals) (r2 : List Nat),
      readBytes d = .ok (payload, r) →
      readLocalsVec payload = .ok (locals, r2) →
      Code.GetLocalCount { Locals := locals, Expr := none } < 4294967295 →
      readCode d = .ok ({ Locals := locals, Expr := none }, r)) ∧
    (∀ pre rest : List Nat, 0x0B ∉ pre → readExpr (pre ++ 0x0B :: rest) = .ok (none, rest)) ∧
    (∀ d : List Nat, 0x0B ∉ d → readExpr d = .error .unexpectedEnd) := by
  refine ⟨?_, ?_, ?_, ?_⟩
  · intro d c r h
    simp only [readCode, Rd.bind] at h
    cases hb : readBytes d with
    | error e => simp only [hb] at h; exact absurd h (by simp)
    | ok p =>
      obtain ⟨payload, d1⟩ := p
      simp only [hb] at h
      cases hl : readLocalsVec payload with
      | error e => simp only [hl] at h; exact absurd h (by simp)
      | ok q =>
        obtain ⟨locals, r2⟩ := q
        simp only [hl] at h
        by_cases hc : Code.GetLocalCount { Locals := locals, Expr := none } ≥ 4294967295
        · rw [if_pos hc] at h; exact absurd h (by simp)
        · rw [if_neg hc] at h
          obtain ⟨rfl, rfl⟩ : ({ Locals := locals, Expr := none } : Code) = c ∧ d1 = r := by
            simpa using h
          rfl
  · intro d payload r locals r2 hb hl hc
    simp only [readCode, Rd.bind, hb, hl]
    rw [if_neg (by omega)]
  · intro pre rest hpre
    induction pre with
    | nil => simp [readExpr, readExprLoop]
    | cons b tl ih =>
      have hb : b ≠ 0x0B := by intro hb; exact hpre (by simp [hb])
      have htl : 0x0B ∉ tl := fun hm => hpre (by simp [hm])
      simpa [readExpr, readExprLoop, hb] using ih htl
  · intro d hd
    induction d with
    | nil => rfl
    | cons b tl ih =>
      have hb : b ≠ 0x0B := by intro hb; exact hd (by simp [hb])
      have htl : 0x0B ∉ tl := fun hm => hd (by simp [hm])
      simpa [readExpr, readExprLoop, hb] using ih htl

/-- Witness for C10: a code entry whose slice carries two junk bytes after an
empty locals vector (and no `0x0B` anywhere) decodes successfully with
`Expr = none`, and an initializer expression stops right after the first
`0x0B`. -/
theorem code_body_discarded_expr_nil_witness :
    readCode [0x03, 0x00, 0x55, 0x66] = .ok ({ Locals := [], Expr := none }, []) ∧
    readExpr [0x41, 0x05, 0x0B, 0x99] = .ok (none, [0x99]) := by
  constructor
  · exact code_body_discarded_expr_nil.2.1 [0x03, 0x00, 0x55, 0x66] [0x00, 0x55, 0x66] []
      [] [0x55, 0x66] (by decide) (by decide) (by decide)
  · exact code_body_discarded_expr_nil.2.2.1 [0x41, 0x05] [0x99] (by decide)

/-- C3: a non-custom section id that is not greater than the id of the
previously seen non-custom section fails with the "junk after last section"
StructuralViolation (hence ids 1..11 appear at most once each, in strictly
increasing order); a custom section (id 0) is decoded and appended without
touching `prev`, so custom sections may appear any number of times anywhere
without affecting the ordering.  The two concrete conjuncts exercise a
duplicate (`1, 1`) and an out-of-order (`2, 1`) pair, and interleaved custom
sections decoding successfully. -/
theorem section_ordering :
    (∀ (fuel p : Nat) (m : WasmModule) (s : Nat) (rest : List Nat),
      s ≠ 0 → s ≤ 11 → s ≤ p →
      readSectionsLoop (fuel + 1) p m (s :: rest) =
        (m, rest, some (.junkAfterLastSection s))) ∧
    (∀ (fuel p : Nat) (m : WasmModule) (rest : List Nat),
      readSectionsLoop (fuel + 1) p m (0 :: rest) =
        match readCustomSec rest with
        | .ok (c, r) =>
          readSectionsLoop fuel p { m with CustomSecs := m.CustomSecs ++ [c] } r
        | .error e => (m, rest, some e)) ∧
    (Decode (hdr8 ++ [1, 1, 0] ++ [1, 1, 0])).2 = some (.junkAfterLastSection 1) ∧
    (Decode (hdr8 ++ [2, 1, 0] ++ [1, 1, 0])).2 = some (.junkAfterLastSection 1) ∧
    (Decode (hdr8 ++ [0, 1, 0] ++ [1, 1, 0] ++ [0, 1, 0] ++ [2, 1, 0] ++ [0, 1, 0])).2 =
      none := by
  refine ⟨?_, ?_, by decide, by decide, by decide⟩
  · intro fuel p m s rest h0 h11 hle
    simp only [readSectionsLoop, SecCustomID, SecDataID]
    rw [if_neg h0, if_neg (by omega), if_pos hle]
  · intro fuel p m rest
    simp only [readSectionsLoop, SecCustomID, if_true]
    cases hcs : readCustomSec rest with
    | error e => simp only [hcs]
    | ok p2 => obtain ⟨c, r⟩ := p2; simp only [hcs]

/-- Witness for C3: a duplicate type-section id is rejected immediately. -/
theorem section_ordering_witness :
    readSectionsLoop 1 1 {} [1] = ({}, [], some (.junkAfterLastSection 1)) :=
  section_ordering.1 0 1 {} 1 [] (by decide) (by decide) (by decide)

/-- C4: for every standard section, after the section-body decoder returns,
the number of bytes it consumed (remaining before minus remaining after)
must equal the declared byte length `n`; a mismatch fails with the
"section size mismatch" StructuralViolation, and on an exact match the loop
proceeds to the next section. -/
theorem section_size_accounting :
    (∀ (fuel p s n : Nat) (m m2 : WasmModule) (rest d1 d2 : List Nat),
      s ≠ 0 → s ≤ 11 → p < s →
      readVarU32 rest = .ok (n, d1) →
      readNonCustomSec s m d1 = .ok (m2, d2) →
      d2.length + n ≠ d1.length →
      readSectionsLoop (fuel + 1) p m (s :: rest) =
        (m2, d2, some (.sectionSizeMismatch s))) ∧
    (∀ (fuel p s n : Nat) (m m2 : WasmModule) (rest d1 d2 : List Nat),
      s ≠ 0 → s ≤ 11 → p < s →
      readVarU32 rest = .ok (n, d1) →
      readNonCustomSec s m d1 = .ok (m2, d2) →
      d2.length + n = d1.length →
      readSectionsLoop (fuel + 1) p m (s :: rest) = readSectionsLoop fuel s m2 d2) := by
  constructor
  · intro fuel p s n m m2 rest d1 d2 h0 h11 hp hv hn hmis
    simp only [readSectionsLoop, SecCustomID, SecDataID]
    rw [if_neg h0, if_neg (by omega), if_neg (by omega)]
    simp only [hv, hn]
    rw [if_pos hmis]
  · intro fuel p s n m m2 rest d1 d2 h0 h11 hp hv hn hfit
    simp only [readSectionsLoop, SecCustomID, SecDataID]
    rw [if_neg h0, if_neg (by omega), if_neg (by omega)]
    simp only [hv, hn]
    rw [if_neg (by omega)]

/-- Witness for C4: a type section declaring length 2 whose body consumes
only 1 byte fails with "section size mismatch". -/
theorem section_size_accounting_witness :
    readSectionsLoop 3 0 {} [1, 2, 0] = ({}, [], some (.sectionSizeMismatch 1)) := by
  have h := section_size_accounting.1 2 0 1 2 {} {} [2, 0] [0] []
    (by decide) (by decide) (by decide) (by decide) (by decide) (by decide)
  exact h

/- ### Success-path structure of `readModule` -/

/-- A successful `readNonCustomSec` only replaces section fields; the magic
and version fields of the module are untouched. -/
theorem readNonCustomSec_ok_header (s : Nat) (m m2 : WasmModule) (d r : List Nat)
    (h : readNonCustomSec s m d = .ok (m2, r)) :
    m2.Magic = m.Magic ∧ m2.Version = m.Version := by
  unfold readNonCustomSec at h
  split at h <;>
    (simp only [Rd.bind, Rd.pure] at h; try split at h) <;>
    (first
      | (simp only [Except.ok.injEq, Prod.mk.injEq] at h
         obtain ⟨h1, h2⟩ := h
         subst h1
         exact ⟨rfl, rfl⟩)
      | simp_all)

/-- The section-stream loop never touches the magic and version fields of
the module it assembles. -/
theorem readSectionsLoop_header (fuel : Nat) :
    ∀ (p : Nat) (m m3 : WasmModule) (d d3 : List Nat) (o : Option DErr),
      readSectionsLoop fuel p m d = (m3, d3, o) →
      m3.Magic = m.Magic ∧ m3.Version = m.Version := by
  induction fuel with
  | zero =>
    intro p m m3 d d3 o h
    cases d <;>
      (simp only [readSectionsLoop, Prod.mk.injEq] at h
       obtain ⟨rfl, -, -⟩ := h
       exact ⟨rfl, rfl⟩)
  | succ f ih =>
    intro p m m3 d d3 o h
    cases d with
    | nil =>
      simp only [readSectionsLoop, Prod.mk.injEq] at h
      obtain ⟨rfl, -, -⟩ := h
      exact ⟨rfl, rfl⟩
    | cons s rest =>
      simp only [readSectionsLoop] at h
      split at h
      · -- custom section
        split at h
        · simp only [Prod.mk.injEq] at h
          obtain ⟨rfl, -, -⟩ := h
          exact ⟨rfl, rfl⟩
        · simpa using ih _ _ _ _ _ _ h
      · split at h
        · simp only [Prod.mk.injEq] at h
          obtain ⟨rfl, -, -⟩ := h
          exact ⟨rfl, rfl⟩
        · split at h
          · simp only [Prod.mk.injEq] at h
            obtain ⟨rfl, -, -⟩ := h
            exact ⟨rfl, rfl⟩
          · split at h
            · simp only [Prod.mk.injEq] at h
              obtain ⟨rfl, -, -⟩ := h
              exact ⟨rfl, rfl⟩
            · rename_i n d1 hv
              split at h
              · simp only [Prod.mk.injEq] at h
                obtain ⟨rfl, -, -⟩ := h
                exact ⟨rfl, rfl⟩
              · rename_i m2 d2 hn
                split at h
                · simp only [Prod.mk.injEq] at h
                  obtain ⟨rfl, -, -⟩ := h
                  exact readNonCustomSec_ok_header _ _ _ _ _ hn
                · have hh := ih _ _ _ _ _ _ h
                  have hx := readNonCustomSec_ok_header _ _ _ _ _ hn
                  exact ⟨hh.1.trans hx.1, hh.2.trans hx.2⟩

/-- On the success path of `readModule` the magic and version checks, the
function/code cross-check and the trailing-bytes check have all passed. -/
theorem readModule_ok_valid (m0 m : WasmModule) (d r : List Nat)
    (h : readModule m0 d = (m, r, none)) :
    m.Magic = MagicNumber ∧ m.Version = Version ∧
      m.FuncSec.length = m.CodeSec.length ∧ r = [] := by
  unfold readModule at h
  split at h
  · split at h
    · simp at h
    · rename_i hmagic
      split at h
      · split at h
        · simp at h
        · rename_i hver
          split at h
          · simp at h
          · rename_i m3 d3 hloop
            split at h
            · simp at h
            · rename_i hfc
              split at h
              · simp at h
              · rename_i hd3
                simp only [Prod.mk.injEq] at h
                obtain ⟨rfl, rfl, -⟩ := h
                obtain ⟨hM, hV⟩ := readSectionsLoop_header _ _ _ _ _ _ _ hloop
                refine ⟨?_, ?_, by omega, List.length_eq_zero.mp (by omega)⟩
                · rw [hM]
                  simpa using hmagic
                · rw [hV]
                  simpa using hver
      · simp at h
  · simp at h

/-- A successful `Decode` yields a module with the correct magic and
version and consistent function/code sections. -/
theorem Decode_ok_valid (d : List Nat) (m : WasmModule) (h : Decode d = (m, none)) :
    m.Magic = MagicNumber ∧ m.Version = Version ∧
      m.FuncSec.length = m.CodeSec.length := by
  rcases hR : readModule {} d with ⟨m1, r1, o1⟩
  simp only [Decode, hR] at h
  obtain ⟨rfl, rfl⟩ : m1 = m ∧ o1 = none := by simpa using h
  have hv := readModule_ok_valid {} _ d r1 hR
  exact ⟨hv.1, hv.2.1, hv.2.2.1⟩

/-- C5: the canonical 8-byte header followed by nothing decodes successfully
to an empty module; any other 4-byte magic value fails with "magic header
not detected"; fewer than 4 bytes fail with "unexpected end of magic
header"; a correct magic followed by any version other than 1 fails with
"unknown binary version". -/
theorem header_handling :
    Decode hdr8 = ({ Magic := MagicNumber, Version := 1 }, none) ∧
    (∀ (b0 b1 b2 b3 : Nat) (rest : List Nat), le32 b0 b1 b2 b3 ≠ MagicNumber →
      Decode (b0 :: b1 :: b2 :: b3 :: rest) =
        ({ Magic := le32 b0 b1 b2 b3 }, some .magicNotDetected)) ∧
    (∀ d : List Nat, d.length < 4 → Decode d = ({}, some .endOfMagicHeader)) ∧
    (∀ (c0 c1 c2 c3 : Nat) (rest : List Nat), le32 c0 c1 c2 c3 ≠ 1 →
      Decode (magic4 ++ c0 :: c1 :: c2 :: c3 :: rest) =
        ({ Magic := MagicNumber, Version := le32 c0 c1 c2 c3 },
          some (.unknownVersion (le32 c0 c1 c2 c3)))) := by
  refine ⟨by decide, ?_, ?_, ?_⟩
  · intro b0 b1 b2 b3 rest h
    simp only [Decode, readModule]
    rw [if_pos h]
  · intro d hd
    rcases d with _ | ⟨a, _ | ⟨b, _ | ⟨c, _ | ⟨e, tl⟩⟩⟩⟩
    · rfl
    · rfl
    · rfl
    · rfl
    · simp only [List.length_cons] at hd
      omega
  · intro c0 c1 c2 c3 rest h
    simp only [magic4, List.cons_append, List.nil_append, Decode, readModule]
    rw [if_neg (by decide), if_pos (by simpa [Version] using h)]
    simp [le32, MagicNumber]

/-- Witness for C5: a wrong magic, a 1-byte input and version 2 all fail
with their respective errors. -/
theorem header_handling_witness :
    Decode [1, 0, 0, 0] = ({ Magic := 1 }, some .magicNotDetected) ∧
    Decode [0x00] = ({}, some .endOfMagicHeader) ∧
    Decode (magic4 ++ [2, 0, 0, 0]) =
      ({ Magic := MagicNumber, Version := 2 }, some (.unknownVersion 2)) := by
  refine ⟨?_, ?_, ?_⟩
  · have h := header_handling.2.1 1 0 0 0 [] (by decide)
    simpa using h
  · exact header_handling.2.2.1 [0x00] (by decide)
  · have h := header_handling.2.2.2 2 0 0 0 [] (by decide)
    simpa using h

/-- C6: every successfully decoded module has function-index and code
sections of equal length, and a module declaring 2 function-index entries
but containing 1 code entry fails with the function/code-length
StructuralViolation. -/
theorem func_code_consistency :
    (∀ (d : List Nat) (m : WasmModule), Decode d = (m, none) →
      m.FuncSec.length = m.CodeSec.length) ∧
    Decode (hdr8 ++ [3, 3, 2, 0, 0] ++ [10, 3, 1, 1, 0]) =
      ({ Magic := MagicNumber, Version := 1, FuncSec := [0, 0],
         CodeSec := [{ Locals := [], Expr := none }] }, some .funcCodeMismatch) := by
  refine ⟨?_, by decide⟩
  intro d m h
  exact (Decode_ok_valid d m h).2.2

/-- Witness for C6: the bare header decodes to a module with (trivially)
equal function and code sections. -/
theorem func_code_consistency_witness :
    ({ Magic := MagicNumber, Version := 1 } : WasmModule).FuncSec.length =
      ({ Magic := MagicNumber, Version := 1 } : WasmModule).CodeSec.length :=
  func_code_consistency.1 hdr8 { Magic := MagicNumber, Version := 1 } (by decide)

/-- C2 (amended): for every input `Decode` yields exactly one outcome —
either a module with no error (and that module is fully valid: correct
magic and version, consistent function/code sections), or a module together
with a single descriptive error.  (The claim's further assertion that the
module returned alongside an error carries no partially decoded content is
refuted by `decode_partial_module_on_error`.) -/
theorem decode_single_outcome :
    ∀ d : List Nat,
      (∃ m : WasmModule, Decode d = (m, none) ∧ m.Magic = MagicNumber ∧
        m.Version = Version ∧ m.FuncSec.length = m.CodeSec.length) ∨
      (∃ (m : WasmModule) (e : DErr), Decode d = (m, some e)) := by
  intro d
  rcases hD : Decode d with ⟨m, o⟩
  cases o with
  | none =>
    obtain ⟨h1, h2, h3⟩ := Decode_ok_valid d m hD
    exact Or.inl ⟨m, rfl, h1, h2, h3⟩
  | some e => exact Or.inr ⟨m, e, rfl⟩

/-- Counterexample for C2: on a valid header followed by a complete type
section and then a malformed section id, `Decode` returns the error
together with a module that carries partially decoded content — the magic,
the version and the fully decoded type section — so the claim that the
module received by the caller on error carries no partially decoded
content is false. -/
theorem decode_partial_module_on_error :
    Decode (hdr8 ++ [1, 4, 1, 0x60, 0, 0] ++ [0xFF]) =
      ({ Magic := MagicNumber, Version := 1,
         TypeSec := [{ Tag := 0x60, ParamTypes := [], ResultTypes := [] }] },
        some (.malformedSectionId 255)) ∧
    ({ Magic := MagicNumber, Version := 1,
       TypeSec := [{ Tag := 0x60, ParamTypes := [], ResultTypes := [] }] } :
        WasmModule) ≠ ({} : WasmModule) := by
  exact ⟨by decide, by decide⟩

/- ### Truncation behaviour of the reader operations (towards C1)

Every reader operation, when it succeeds, consumes a determined prefix of
the input: the result depends only on the consumed bytes, and decoding any
strict truncation of those bytes fails with `errUnexpectedEnd`. -/

theorem rdSafe_pure (a : α) : RdSafe (Rd.pure a) := by
  intro d b r h
  simp only [Rd.pure, Except.ok.injEq, Prod.mk.injEq] at h
  obtain ⟨rfl, rfl⟩ := h
  exact ⟨[], by simp, fun t => rfl, fun k hk => by simp at hk⟩

theorem rdSafe_fail (e : DErr) : RdSafe (Rd.fail (α := α) e) := by
  intro d a r h
  simp [Rd.fail] at h

theorem rdSafe_ite (c : Prop) [Decidable c] {m1 m2 : Rd α}
    (h1 : RdSafe m1) (h2 : RdSafe m2) : RdSafe (if c then m1 else m2) := by
  by_cases hc : c
  · rw [if_pos hc]; exact h1
  · rw [if_neg hc]; exact h2

theorem rdSafe_bind {m : Rd α} {f : α → Rd β} (hm : RdSafe m)
    (hf : ∀ a, RdSafe (f a)) : RdSafe (Rd.bind m f) := by
  intro d b r h
  simp only [Rd.bind] at h
  cases hmd : m d with
  | error e => simp [hmd] at h
  | ok p =>
    obtain ⟨a, d1⟩ := p
    simp only [hmd] at h
    obtain ⟨c1, rfl, det1, tr1⟩ := hm _ a d1 hmd
    obtain ⟨c2, rfl, det2, tr2⟩ := hf a _ b r h
    refine ⟨c1 ++ c2, by simp, ?_, ?_⟩
    · intro t
      have h1 := det1 (c2 ++ t)
      simp only [Rd.bind, List.append_assoc, h1]
      exact det2 t
    · intro k hk
      simp only [List.length_append] at hk
      by_cases hk1 : k < c1.length
      · have h1 := tr1 k hk1
        have heq : (c1 ++ c2).take k = c1.take k := by
          rw [List.take_append_eq_append_take]
          have hz : k - c1.length = 0 := by omega
          simp [hz]
        rw [heq]
        simp only [Rd.bind, h1]
      · push_neg at hk1
        have heq : (c1 ++ c2).take k = c1 ++ c2.take (k - c1.length) := by
          rw [List.take_append_eq_append_take, List.take_of_length_le hk1]
        rw [heq]
        have h1 := det1 (c2.take (k - c1.length))
        simp only [Rd.bind, h1]
        exact tr2 (k - c1.length) (by omega)

/-- An operation that never consumes input (the re-parsing of an already
sliced-out sub-payload) is truncation-safe. -/
theorem rdSafe_nonconsuming (rd : Rd α)
    (h : ∀ d a r, rd d = .ok (a, r) → r = d ∧ (∀ t, rd t = .ok (a, t))) :
    RdSafe rd := by
  intro d a r hok
  obtain ⟨rfl, hall⟩ := h d a r hok
  exact ⟨[], by simp, fun t => hall t, fun k hk => by simp at hk⟩

/-- Every success of a truncation-safe operation leaves at most as many
bytes as it was given. -/
theorem rdSafe_length_le {rd : Rd α} (h : RdSafe rd) (d : List Nat) (a : α)
    (r : List Nat) (hok : rd d = .ok (a, r)) : r.length ≤ d.length := by
  obtain ⟨c, rfl, -, -⟩ := h d a r hok
  simp

theorem rdSafe_readByte : RdSafe readByte := by
  intro d a r h
  cases d with
  | nil => simp [readByte] at h
  | cons b rest =>
    simp only [readByte, Except.ok.injEq, Prod.mk.injEq] at h
    obtain ⟨rfl, rfl⟩ := h
    refine ⟨[b], rfl, fun t => rfl, ?_⟩
    intro k hk
    have hz : k = 0 := by simpa using hk
    subst hz
    rfl

/-- Truncation safety of the unsigned varint loop: a success at byte index
`i` consumed `w - i` bytes, depends only on them, and fails with premature
end of input on every strict truncation. -/
theorem decodeVarUintLoop_safe :
    ∀ (d : List Nat) (i acc v w : Nat),
      decodeVarUintLoop 32 d i acc = .ok (v, w) →
      i < w ∧ w - i ≤ d.length ∧
        (∀ t, decodeVarUintLoop 32 (d.take (w - i) ++ t) i acc = .ok (v, w)) ∧
        (∀ k, k < w - i → decodeVarUintLoop 32 (d.take k) i acc = .error .unexpectedEnd) := by
  intro d
  induction d with
  | nil => intro i acc v w h; simp [decodeVarUintLoop] at h
  | cons b rest ih =>
    intro i acc v w h
    simp only [decodeVarUintLoop] at h
    split at h
    · simp at h
    · rename_i hc1
      split at h
      · simp at h
      · rename_i hc2
        split at h
        · rename_i hc3
          simp only [Except.ok.injEq, Prod.mk.injEq] at h
          obtain ⟨rfl, rfl⟩ := h
          refine ⟨by omega, by simp, ?_, ?_⟩
          · intro t
            have ht : (b :: rest).take (i + 1 - i) = [b] := by
              have hw : i + 1 - i = 1 := by omega
              simp [hw]
            rw [ht]
            simp only [List.cons_append, decodeVarUintLoop]
            rw [if_neg hc1, if_neg hc2, if_pos hc3]
          · intro k hk
            have hz : k = 0 := by omega
            subst hz
            rfl
        · rename_i hc3
          obtain ⟨h1, h2, hdet, htr⟩ := ih (i + 1) _ v w h
          refine ⟨by omega, by simp only [List.length_cons]; omega, ?_, ?_⟩
          · intro t
            have ht : (b :: rest).take (w - i) = b :: rest.take (w - (i + 1)) := by
              have hw : w - i = (w - (i + 1)) + 1 := by omega
              rw [hw, List.take_succ_cons]
            rw [ht]
            simp only [List.cons_append, decodeVarUintLoop]
            rw [if_neg hc1, if_neg hc2, if_neg hc3]
            exact hdet t
          · intro k hk
            cases k with
            | zero => rfl
            | succ k2 =>
              rw [List.take_succ_cons]
              simp only [decodeVarUintLoop]
              rw [if_neg hc1, if_neg hc2, if_neg hc3]
              exact htr k2 (by omega)

theorem rdSafe_readVarU32 : RdSafe readVarU32 := by
  intro d a r h
  simp only [readVarU32, decodeVarUint] at h
  cases hv : decodeVarUintLoop 32 d 0 0 with
  | error e => simp [hv] at h
  | ok p =>
    obtain ⟨n, w⟩ := p
    simp only [hv, Except.ok.injEq, Prod.mk.injEq] at h
    obtain ⟨rfl, rfl⟩ := h
    obtain ⟨h1, h2, hdet, htr⟩ := decodeVarUintLoop_safe d 0 0 n w hv
    simp only [Nat.sub_zero] at h2 hdet htr
    have hlen : (d.take w).length = w := by rw [List.length_take]; omega
    refine ⟨d.take w, (List.take_append_drop w d).symm, ?_, ?_⟩
    · intro t
      simp only [readVarU32, decodeVarUint, hdet t]
      have hdrop : (d.take w ++ t).drop w = t := by
        have hdl := List.drop_left (d.take w) t
        rwa [hlen] at hdl
      rw [hdrop]
    · intro k hk
      rw [hlen] at hk
      have ht : (d.take w).take k = d.take k := by
        rw [List.take_take]
        congr 1
        omega
      rw [ht]
      simp only [readVarU32, decodeVarUint, htr k hk]

theorem rdSafe_readBytes : RdSafe readBytes := by
  apply rdSafe_bind rdSafe_readVarU32
  intro n
  intro d a r h
  beta_reduce at h ⊢
  split at h
  · simp at h
  · rename_i hlen
    push_neg at hlen
    simp only [Except.ok.injEq, Prod.mk.injEq] at h
    obtain ⟨rfl, rfl⟩ := h
    have htl : (d.take n).length = n := by rw [List.length_take]; omega
    refine ⟨d.take n, (List.take_append_drop n d).symm, ?_, ?_⟩
    · intro t
      have hcond : ¬((d.take n ++ t).length < n) := by
        simp only [List.length_append, htl]
        omega
      rw [if_neg hcond]
      have htake : (d.take n ++ t).take n = d.take n := by
        have hx := List.take_left (d.take n) t
        rwa [htl] at hx
      have hdrop : (d.take n ++ t).drop n = t := by
        have hx := List.drop_left (d.take n) t
        rwa [htl] at hx
      rw [htake, hdrop]
    · intro k hk
      rw [htl] at hk
      have ht : (d.take n).take k = d.take k := by
        rw [List.take_take]
        congr 1
        omega
      rw [ht]
      have hc : (d.take k).length < n := by
        rw [List.length_take]
        omega
      rw [if_pos hc]

theorem rdSafe_readName : RdSafe readName :=
  rdSafe_bind rdSafe_readBytes
    (fun bs => rdSafe_ite _ (rdSafe_pure bs) (rdSafe_fail _))

theorem rdSafe_readVec {f : Rd α} (hf : RdSafe f) : ∀ n, RdSafe (readVec f n) := by
  intro n
  induction n with
  | zero => exact rdSafe_pure []
  | succ k ih =>
    exact rdSafe_bind hf (fun a => rdSafe_bind ih (fun as => rdSafe_pure (a :: as)))

theorem rdSafe_readValType : RdSafe readValType :=
  rdSafe_bind rdSafe_readByte
    (fun vt => rdSafe_ite _ (rdSafe_pure vt) (rdSafe_fail _))

theorem rdSafe_readValTypes : RdSafe readValTypes :=
  rdSafe_bind rdSafe_readVarU32 (fun n => rdSafe_readVec rdSafe_readValType n)

theorem rdSafe_readFuncType : RdSafe readFuncType :=
  rdSafe_bind rdSafe_readByte (fun _ =>
    rdSafe_bind rdSafe_readValTypes (fun _ =>
      rdSafe_bind rdSafe_readValTypes (fun _ =>
        rdSafe_ite _ (rdSafe_fail _) (rdSafe_pure _))))

theorem rdSafe_readLimits : RdSafe readLimits :=
  rdSafe_bind rdSafe_readByte (fun _ =>
    rdSafe_bind rdSafe_readVarU32 (fun _ =>
      rdSafe_ite _
        (rdSafe_bind rdSafe_readVarU32 (fun _ => rdSafe_pure _))
        (rdSafe_pure _)))

theorem rdSafe_readTableType : RdSafe readTableType :=
  rdSafe_bind rdSafe_readByte (fun _ =>
    rdSafe_bind rdSafe_readLimits (fun _ =>
      rdSafe_ite _ (rdSafe_fail _) (rdSafe_pure _)))

theorem rdSafe_readGlobalType : RdSafe readGlobalType :=
  rdSafe_bind rdSafe_readValType (fun _ =>
    rdSafe_bind rdSafe_readByte (fun _ =>
      rdSafe_ite _ (rdSafe_pure _) (rdSafe_fail _)))

theorem readExprLoop_safe : ∀ (d : List Nat) (a : Expr) (r : List Nat),
    readExprLoop d = .ok (a, r) →
    ∃ c, d = c ++ r ∧ (∀ t, readExprLoop (c ++ t) = .ok (a, t)) ∧
      (∀ k, k < c.length → readExprLoop (c.take k) = .error .unexpectedEnd) := by
  intro d
  induction d with
  | nil => intro a r h; simp [readExprLoop] at h
  | cons b rest ih =>
    intro a r h
    simp only [readExprLoop] at h
    split at h
    · rename_i hb
      simp only [Except.ok.injEq, Prod.mk.injEq] at h
      obtain ⟨rfl, rfl⟩ := h
      subst hb
      refine ⟨[0x0B], rfl, fun t => by simp [readExprLoop], ?_⟩
      intro k hk
      have hz : k = 0 := by simpa using hk
      subst hz
      rfl
    · rename_i hb
      obtain ⟨c, rfl, det, tr⟩ := ih a r h
      refine ⟨b :: c, rfl, ?_, ?_⟩
      · intro t
        simp only [List.cons_append, readExprLoop]
        rw [if_neg hb]
        exact det t
      · intro k hk
        cases k with
        | zero => rfl
        | succ k2 =>
          rw [List.take_succ_cons]
          simp only [readExprLoop]
          rw [if_neg hb]
          exact tr k2 (by simpa using hk)

theorem rdSafe_readExpr : RdSafe readExpr := fun d a r h =>
  readExprLoop_safe d a r h

theorem rdSafe_readImportDesc : RdSafe readImportDesc :=
  rdSafe_bind rdSafe_readByte (fun _ =>
    rdSafe_ite _ (rdSafe_bind rdSafe_readVarU32 (fun _ => rdSafe_pure _))
      (rdSafe_ite _ (rdSafe_bind rdSafe_readTableType (fun _ => rdSafe_pure _))
        (rdSafe_ite _ (rdSafe_bind rdSafe_readLimits (fun _ => rdSafe_pure _))
          (rdSafe_ite _ (rdSafe_bind rdSafe_readGlobalType (fun _ => rdSafe_pure _))
            (rdSafe_fail _)))))

theorem rdSafe_readImport : RdSafe readImport :=
  rdSafe_bind rdSafe_readName (fun _ =>
    rdSafe_bind rdSafe_readName (fun _ =>
      rdSafe_bind rdSafe_readImportDesc (fun _ => rdSafe_pure _)))

theorem rdSafe_readExportDesc : RdSafe readExportDesc :=
  rdSafe_bind rdSafe_readByte (fun _ =>
    rdSafe_bind rdSafe_readVarU32 (fun _ =>
      rdSafe_ite _ (rdSafe_pure _) (rdSafe_fail _)))

theorem rdSafe_readExport : RdSafe readExport :=
  rdSafe_bind rdSafe_readName (fun _ =>
    rdSafe_bind rdSafe_readExportDesc (fun _ => rdSafe_pure _))

theorem rdSafe_readGlobal : RdSafe readGlobal :=
  rdSafe_bind rdSafe_readGlobalType (fun _ =>
    rdSafe_bind rdSafe_readExpr (fun _ => rdSafe_pure _))

theorem rdSafe_readIndices : RdSafe readIndices :=
  rdSafe_bind rdSafe_readVarU32 (fun n => rdSafe_readVec rdSafe_readVarU32 n)

theorem rdSafe_readElem : RdSafe readElem :=
  rdSafe_bind rdSafe_readVarU32 (fun _ =>
    rdSafe_bind rdSafe_readExpr (fun _ =>
      rdSafe_bind rdSafe_readIndices (fun _ => rdSafe_pure _)))

theorem rdSafe_readLocals : RdSafe readLocals :=
  rdSafe_bind rdSafe_readVarU32 (fun _ =>
    rdSafe_bind rdSafe_readValType (fun _ => rdSafe_pure _))

theorem rdSafe_readLocalsVec : RdSafe readLocalsVec :=
  rdSafe_bind rdSafe_readVarU32 (fun n => rdSafe_readVec rdSafe_readLocals n)

theorem rdSafe_readData : RdSafe readData :=
  rdSafe_bind rdSafe_readVarU32 (fun _ =>
    rdSafe_bind rdSafe_readExpr (fun _ =>
      rdSafe_bind rdSafe_readBytes (fun _ => rdSafe_pure _)))

theorem rdSafe_readStartSec : RdSafe readStartSec :=
  rdSafe_bind rdSafe_readVarU32 (fun _ => rdSafe_pure _)

theorem rdSafe_readCode : RdSafe readCode := by
  apply rdSafe_bind rdSafe_readBytes
  intro payload
  apply rdSafe_nonconsuming
  intro d a r h
  cases hl : readLocalsVec payload with
  | error e => simp [hl] at h
  | ok q =>
    obtain ⟨locals, r2⟩ := q
    simp only [hl] at h
    split at h
    · simp at h
    · rename_i hc
      simp only [Except.ok.injEq, Prod.mk.injEq] at h
      obtain ⟨rfl, rfl⟩ := h
      refine ⟨rfl, fun t => ?_⟩
      simp only [hl]
      rw [if_neg hc]

theorem rdSafe_readCustomSec : RdSafe readCustomSec := by
  intro d a r h
  simp only [readCustomSec] at h
  cases hb : readBytes d with
  | error e => simp [hb] at h
  | ok p =>
    obtain ⟨payload, d1⟩ := p
    simp only [hb] at h
    cases hn : readName payload with
    | error e => simp [hn] at h
    | ok q =>
      obtain ⟨nm, rest2⟩ := q
      simp only [hn, Except.ok.injEq, Prod.mk.injEq] at h
      obtain ⟨rfl, rfl⟩ := h
      obtain ⟨c, rfl, det, tr⟩ := rdSafe_readBytes d payload d1 hb
      refine ⟨c, rfl, ?_, ?_⟩
      · intro t
        simp only [readCustomSec, det t, hn]
      · intro k hk
        simp only [readCustomSec, tr k hk]

theorem rdSafe_readTypeSec : RdSafe readTypeSec :=
  rdSafe_bind rdSafe_readVarU32 (fun n => rdSafe_readVec rdSafe_readFuncType n)

theorem rdSafe_readImportSec : RdSafe readImportSec :=
  rdSafe_bind rdSafe_readVarU32 (fun n => rdSafe_readVec rdSafe_readImport n)

theorem rdSafe_readTableSec : RdSafe readTableSec :=
  rdSafe_bind rdSafe_readVarU32 (fun n => rdSafe_readVec rdSafe_readTableType n)

theorem rdSafe_readMemSec : RdSafe readMemSec :=
  rdSafe_bind rdSafe_readVarU32 (fun n => rdSafe_readVec rdSafe_readLimits n)

theorem rdSafe_readGlobalSec : RdSafe readGlobalSec :=
  rdSafe_bind rdSafe_readVarU32 (fun n => rdSafe_readVec rdSafe_readGlobal n)

theorem rdSafe_readExportSec : RdSafe readExportSec :=
  rdSafe_bind rdSafe_readVarU32 (fun n => rdSafe_readVec rdSafe_readExport n)

theorem rdSafe_readElemSec : RdSafe readElemSec :=
  rdSafe_bind rdSafe_readVarU32 (fun n => rdSafe_readVec rdSafe_readElem n)

theorem rdSafe_readCodeSec : RdSafe readCodeSec :=
  rdSafe_bind rdSafe_readVarU32 (fun n => rdSafe_readVec rdSafe_readCode n)

theorem rdSafe_readDataSec : RdSafe readDataSec :=
  rdSafe_bind rdSafe_readVarU32 (fun n => rdSafe_readVec rdSafe_readData n)

theorem rdSafe_readNonCustomSec (s : Nat) (m : WasmModule) :
    RdSafe (readNonCustomSec s m) := by
  unfold readNonCustomSec
  split
  · exact rdSafe_bind rdSafe_readTypeSec (fun _ => rdSafe_pure _)
  · exact rdSafe_bind rdSafe_readImportSec (fun _ => rdSafe_pure _)
  · exact rdSafe_bind rdSafe_readIndices (fun _ => rdSafe_pure _)
  · exact rdSafe_bind rdSafe_readTableSec (fun _ => rdSafe_pure _)
  · exact rdSafe_bind rdSafe_readMemSec (fun _ => rdSafe_pure _)
  · exact rdSafe_bind rdSafe_readGlobalSec (fun _ => rdSafe_pure _)
  · exact rdSafe_bind rdSafe_readExportSec (fun _ => rdSafe_pure _)
  · exact rdSafe_bind rdSafe_readStartSec (fun _ => rdSafe_pure _)
  · exact rdSafe_bind rdSafe_readElemSec (fun _ => rdSafe_pure _)
  · exact rdSafe_bind rdSafe_readCodeSec (fun _ => rdSafe_pure _)
  · exact rdSafe_bind rdSafe_readDataSec (fun _ => rdSafe_pure _)
  · exact rdSafe_pure _

/-- Truncating the section stream of a successfully decoded module either
still decodes successfully (when the cut falls on a section boundary) or
fails with premature end of input — never with any other error. -/
theorem readSectionsLoop_trunc (fuel : Nat) :
    ∀ (p : Nat) (m m3 : WasmModule) (d : List Nat),
      d.length ≤ fuel →
      readSectionsLoop fuel p m d = (m3, [], none) →
      ∀ (k fuel2 : Nat), k ≤ d.length → k ≤ fuel2 →
        (∃ m4, readSectionsLoop fuel2 p m (d.take k) = (m4, [], none)) ∨
        (∃ m4 d4, readSectionsLoop fuel2 p m (d.take k) = (m4, d4, some .unexpectedEnd)) := by
  induction fuel with
  | zero =>
    intro p m m3 d hlen h k fuel2 hk hkf
    have hd : d = [] := List.length_eq_zero.mp (by omega)
    subst hd
    have hk0 : k = 0 := by simpa using hk
    subst hk0
    left
    exact ⟨m, by cases fuel2 <;> rfl⟩
  | succ f ih =>
    intro p m m3 d hlen h k fuel2 hk hkf
    cases d with
    | nil =>
      have hk0 : k = 0 := by simpa using hk
      subst hk0
      left
      exact ⟨m, by cases fuel2 <;> rfl⟩
    | cons s rest =>
      cases k with
      | zero =>
        left
        exact ⟨m, by cases fuel2 <;> rfl⟩
      | succ k1 =>
        obtain ⟨g, rfl⟩ : ∃ g, fuel2 = g + 1 := ⟨fuel2 - 1, by omega⟩
        simp only [readSectionsLoop] at h
        split at h
        · -- custom section (s = 0)
          rename_i h0
          split at h
          · simp at h
          · rename_i c r hcs
            obtain ⟨cc, rfl, det, tr⟩ := rdSafe_readCustomSec rest c r hcs
            have hL : cc.length + r.length ≤ f := by
              simp only [List.length_cons, List.length_append] at hlen
              omega
            have hK : k1 ≤ cc.length + r.length := by
              simp only [List.length_cons, List.length_append] at hk
              omega
            by_cases hcut : k1 < cc.length
            · have her := tr k1 hcut
              have htk : (cc ++ r).take k1 = cc.take k1 := by
                rw [List.take_append_eq_append_take]
                have hz : k1 - cc.length = 0 := by omega
                simp [hz]
              right
              refine ⟨m, cc.take k1, ?_⟩
              rw [List.take_succ_cons, htk]
              simp only [readSectionsLoop]
              rw [if_pos h0]
              simp only [her]
            · push_neg at hcut
              have htk : (cc ++ r).take k1 = cc ++ r.take (k1 - cc.length) := by
                rw [List.take_append_eq_append_take, List.take_of_length_le hcut]
              have hloop2 :
                  readSectionsLoop (g + 1) p m ((s :: (cc ++ r)).take (k1 + 1)) =
                    readSectionsLoop g p { m with CustomSecs := m.CustomSecs ++ [c] }
                      (r.take (k1 - cc.length)) := by
                rw [List.take_succ_cons, htk]
                simp only [readSectionsLoop]
                rw [if_pos h0]
                simp only [det (r.take (k1 - cc.length))]
              rw [hloop2]
              exact ih p _ m3 r (by omega) h (k1 - cc.length) g (by omega) (by omega)
        · -- standard section
          rename_i h0
          split at h
          · simp at h
          · rename_i h11
            split at h
            · simp at h
            · rename_i hp
              split at h
              · simp at h
              · rename_i n d1 hv
                obtain ⟨cv, rfl, detv, trv⟩ := rdSafe_readVarU32 rest n d1 hv
                by_cases hcut : k1 < cv.length
                · have her := trv k1 hcut
                  have htk : (cv ++ d1).take k1 = cv.take k1 := by
                    rw [List.take_append_eq_append_take]
                    have hz : k1 - cv.length = 0 := by omega
                    simp [hz]
                  right
                  refine ⟨m, cv.take k1, ?_⟩
                  rw [List.take_succ_cons, htk]
                  simp only [readSectionsLoop]
                  rw [if_neg h0, if_neg h11, if_neg hp]
                  simp only [her]
                · push_neg at hcut
                  split at h
                  · simp at h
                  · rename_i m2 d2 hn
                    obtain ⟨cb, rfl, detb, trb⟩ :=
                      rdSafe_readNonCustomSec s m _ m2 d2 hn
                    split at h
                    · simp at h
                    · rename_i hfit
                      have hncb : n = cb.length := by
                        simp only [List.length_append] at hfit
                        omega
                      have hL : cv.length + cb.length + d2.length ≤ f := by
                        simp only [List.length_cons, List.length_append] at hlen
                        omega
                      have hK : k1 ≤ cv.length + cb.length + d2.length := by
                        simp only [List.length_cons, List.length_append] at hk
                        omega
                      have htk : (cv ++ (cb ++ d2)).take k1 =
                          cv ++ (cb ++ d2).take (k1 - cv.length) := by
                        rw [List.take_append_eq_append_take, List.take_of_length_le hcut]
                      by_cases hcut2 : k1 - cv.length < cb.length
                      · have her := trb (k1 - cv.length) hcut2
                        have htk2 : (cb ++ d2).take (k1 - cv.length) =
                            cb.take (k1 - cv.length) := by
                          rw [List.take_append_eq_append_take]
                          have hz : k1 - cv.length - cb.length = 0 := by omega
                          simp [hz]
                        right
                        refine ⟨m, cb.take (k1 - cv.length), ?_⟩
                        rw [List.take_succ_cons, htk, htk2]
                        simp only [readSectionsLoop]
                        rw [if_neg h0, if_neg h11, if_neg hp]
                        simp only [detv (cb.take (k1 - cv.length))]
                        simp only [her]
                      · push_neg at hcut2
                        have htk2 : (cb ++ d2).take (k1 - cv.length) =
                            cb ++ d2.take (k1 - cv.length - cb.length) := by
                          rw [List.take_append_eq_append_take,
                            List.take_of_length_le hcut2]
                        have htl : (d2.take (k1 - cv.length - cb.length)).length =
                            k1 - cv.length - cb.length := by
                          rw [List.length_take]
                          omega
                        have hfit2 :
                            ¬((d2.take (k1 - cv.length - cb.length)).length + n ≠
                              (cb ++ d2.take (k1 - cv.length - cb.length)).length) := by
                          simp only [List.length_append, htl]
                          omega
                        have hloop2 :
                            readSectionsLoop (g + 1) p m
                                ((s :: (cv ++ (cb ++ d2))).take (k1 + 1)) =
                              readSectionsLoop g s m2
                                (d2.take (k1 - cv.length - cb.length)) := by
                          rw [List.take_succ_cons, htk, htk2]
                          simp only [readSectionsLoop]
                          rw [if_neg h0, if_neg h11, if_neg hp]
                          simp only [detv (cb ++ d2.take (k1 - cv.length - cb.length))]
                          simp only [detb (d2.take (k1 - cv.length - cb.length))]
                          rw [if_neg hfit2]
                        rw [hloop2]
                        exact ih s m2 m3 d2 (by omega) h
                          (k1 - cv.length - cb.length) g (by omega) (by omega)

theorem take_cons4 (a b c e : α) (l : List α) (k : Nat) :
    (a :: b :: c :: e :: l).take (k + 4) = a :: b :: c :: e :: l.take k := by
  rw [show k + 4 = (k + 3) + 1 by omega, List.take_succ_cons,
    show k + 3 = (k + 2) + 1 by omega, List.take_succ_cons,
    show k + 2 = (k + 1) + 1 by omega, List.take_succ_cons, List.take_succ_cons]

/-- A truncation that leaves fewer than 4 bytes fails in the magic read. -/
theorem decode_short_snd (d : List Nat) (h : d.length < 4) :
    (Decode d).2 = some .endOfMagicHeader := by
  rcases d with _ | ⟨a, _ | ⟨b, _ | ⟨c, _ | ⟨e, tl⟩⟩⟩⟩
  · rfl
  · rfl
  · rfl
  · rfl
  · simp only [List.length_cons] at h
    omega

/-- A truncation that leaves a correct magic but fewer than 4 further bytes
fails in the version read. -/
theorem decode_version_short (b0 b1 b2 b3 : Nat) (rest : List Nat)
    (hm : le32 b0 b1 b2 b3 = MagicNumber) (h : rest.length < 4) :
    (Decode (b0 :: b1 :: b2 :: b3 :: rest)).2 = some .endOfVersion := by
  rcases rest with _ | ⟨a, _ | ⟨b, _ | ⟨c, _ | ⟨e, tl⟩⟩⟩⟩
  · simp [Decode, readModule, hm]
  · simp [Decode, readModule, hm]
  · simp [Decode, readModule, hm]
  · simp [Decode, readModule, hm]
  · simp only [List.length_cons] at h
    omega

/-- C1 (amended): truncating a valid input at any byte offset before its
logical end either fails with a TruncatedInput-kind error, or decodes
successfully (when the cut falls exactly on a section boundary, the prefix
is itself a well-formed module), or fails with the function/code-length
StructuralViolation (when the cut separates a function-index section from
its code section); it never fails with any other kind of error. -/
theorem decode_truncation :
    ∀ (d : List Nat) (m : WasmModule), Decode d = (m, none) →
      ∀ k, k < d.length →
        (Decode (d.take k)).2 = none ∨
        (∃ e, (Decode (d.take k)).2 = some e ∧
          (e.isTruncation = true ∨ e = DErr.funcCodeMismatch)) := by
  intro d m hD k hk
  rcases hR : readModule {} d with ⟨m1, r1, o1⟩
  have hD2 : m1 = m ∧ o1 = none := by
    simp only [Decode, hR] at hD
    simpa using hD
  obtain ⟨rfl, rfl⟩ := hD2
  unfold readModule at hR
  split at hR
  · rename_i b0 b1 b2 b3 d1
    split at hR
    · simp at hR
    · rename_i hmagic
      split at hR
      · rename_i c0 c1 c2 c3 d2
        split at hR
        · simp at hR
        · rename_i hver
          split at hR
          · simp at hR
          · rename_i m3 d3 hloop
            split at hR
            · simp at hR
            · rename_i hfc
              split at hR
              · simp at hR
              · rename_i hd3
                simp only [Prod.mk.injEq] at hR
                obtain ⟨rfl, rfl, -⟩ := hR
                have hd3nil : d3 = [] := List.length_eq_zero.mp (by omega)
                subst hd3nil
                by_cases hk4 : k < 4
                · right
                  refine ⟨.endOfMagicHeader, ?_, Or.inl rfl⟩
                  apply decode_short_snd
                  rw [List.length_take]
                  simp only [List.length_cons]
                  omega
                · by_cases hk8 : k < 8
                  · right
                    refine ⟨.endOfVersion, ?_, Or.inl rfl⟩
                    obtain ⟨k4, rfl⟩ : ∃ k4, k = k4 + 4 := ⟨k - 4, by omega⟩
                    rw [take_cons4]
                    apply decode_version_short _ _ _ _ _ (by simpa using hmagic)
                    rw [List.length_take]
                    simp only [List.length_cons]
                    omega
                  · obtain ⟨k8, rfl⟩ : ∃ k8, k = k8 + 8 := ⟨k - 8, by omega⟩
                    have htk : (b0 :: b1 :: b2 :: b3 :: c0 :: c1 :: c2 :: c3 :: d2).take
                        (k8 + 8) =
                        b0 :: b1 :: b2 :: b3 :: c0 :: c1 :: c2 :: c3 :: d2.take k8 := by
                      rw [show k8 + 8 = (k8 + 4) + 4 by omega, take_cons4, take_cons4]
                    rw [htk]
                    have hk8le : k8 ≤ d2.length := by
                      simp only [List.length_cons] at hk
                      omega
                    have hlt : (d2.take k8).length = k8 := by
                      rw [List.length_take]
                      omega
                    have hT := readSectionsLoop_trunc d2.length 0 _ m3 d2 le_rfl hloop
                      k8 k8 hk8le le_rfl
                    rcases hT with ⟨m4, heq⟩ | ⟨m4, d4, heq⟩
                    · by_cases hfc2 : m4.FuncSec.length = m4.CodeSec.length
                      · left
                        simp only [Decode, readModule]
                        rw [if_neg hmagic, if_neg hver, hlt]
                        simp only [heq]
                        rw [if_neg (by omega)]
                        rfl
                      · right
                        refine ⟨.funcCodeMismatch, ?_, Or.inr rfl⟩
                        simp only [Decode, readModule]
                        rw [if_neg hmagic, if_neg hver, hlt]
                        simp only [heq]
                        rw [if_pos (by omega)]
                    · right
                      refine ⟨.unexpectedEnd, ?_, Or.inl rfl⟩
                      simp only [Decode, readModule]
                      rw [if_neg hmagic, if_neg hver, hlt]
                      simp only [heq]
      · simp at hR
  · simp at hR

/-- Counterexample for C1: `truncEx` is a valid input (it decodes with no
error), yet truncating it at byte offset 8 (before its logical end, 17)
decodes successfully instead of failing, and truncating it at byte offset 12
fails with the function/code-length StructuralViolation, which is not of the
TruncatedInput kind.  Both refute the claim that every such truncation fails
with TruncatedInput. -/
theorem decode_truncation_counterexample :
    (Decode truncEx).2 = none ∧ truncEx.length = 17 ∧
    (Decode (truncEx.take 8)).2 = none ∧
    (Decode (truncEx.take 12)).2 = some .funcCodeMismatch ∧
    DErr.isTruncation .funcCodeMismatch = false := by
  exact ⟨by decide, by decide, by decide, by decide, rfl⟩

/-- Witness for C1 (amended): the amended theorem applied to `truncEx`
truncated at offset 12. -/
theorem decode_truncation_witness :
    (Decode (truncEx.take 12)).2 = none ∨
    (∃ e, (Decode (truncEx.take 12)).2 = some e ∧
      (e.isTruncation = true ∨ e = DErr.funcCodeMismatch)) :=
  decode_truncation truncEx
    { Magic := MagicNumber, Version := 1, FuncSec := [0],
      CodeSec := [{ Locals := [], Expr := none }] }
    (by decide) 12 (by decide)
